import Mathlib

set_option maxHeartbeats 1000000

/-!
A verification development for the `sealevel-ffi` C boundary of the Sealevel
virtual machine (`src/sealevel-ffi/sealevel.h`).  The error-code constants and
the shapes of the boundary types (`sealevel_instruction_account`, the handle
types and the signatures of the exported functions) are taken from the header.
The behaviour behind the boundary (verifier, interpreter, JIT, invoke-context
state machine, thread-local error channel) is not shipped in this repository,
so it is modelled from the design specification, faithful to its words; each
such definition carries a doc comment starting with `Modelled from the spec:`.
-/

namespace Sealevel

/-! ## Error codes (from `sealevel.h`, lines 22-30) -/

def SEALEVEL_OK : Int := 0

def SEALEVEL_ERR_INVALID_ELF : Int := 1

def SEALEVEL_ERR_SYSCALL_REGISTRATION : Int := 2

def SEALEVEL_ERR_CALL_DEPTH_EXCEEDED : Int := 3

def SEALEVEL_ERR_UNKNOWN : Int := -1

/-- Access parameters of an account usage in an instruction
(from `sealevel.h`, lines 50-58). -/
structure sealevel_instruction_account where
  index_in_transaction : Nat
  index_in_caller : Nat
  is_signer : Bool
  is_writable : Bool
deriving Repr, DecidableEq

/-- Modelled from the spec: the Machine is the process-wide configuration
object (stack size, heap size, max call depth), immutable after construction
(§3). -/
structure sealevel_machine where
  maxCallDepth : Nat
  stackSize : Nat
  heapSize : Nat
deriving Repr, DecidableEq

/-! ## Bytecode and the verifier -/

/-- Modelled from the spec: the fixed register file width of the VM (§4.1,
register usage must respect the fixed register file width). -/
def NUM_REGISTERS : Nat := 11

/-- Modelled from the spec: a decoded bytecode instruction of the VM (§4.2):
register moves and arithmetic, control transfer, bounded memory access,
internal call/return, syscall and exit. -/
inductive Op where
  | movImm (dst : Nat) (imm : Int)
  | add (dst src : Nat)
  | jump (target : Nat)
  | jeqImm (r : Nat) (imm : Int) (target : Nat)
  | load (dst : Nat) (addr : Nat)
  | store (addr : Nat) (src : Nat)
  | call (target : Nat)
  | ret
  | syscall (n : Nat)
  | exit
deriving Repr, DecidableEq

/-- Modelled from the spec: the magic bytes that open a well-formed program
image; the container format is otherwise opaque (§1, §4.1). -/
def ELF_MAGIC : List Nat := [0x7f, 0x45, 0x4c, 0x46]

/-- Modelled from the spec: decode one 8-byte instruction slot into an
instruction; an unknown opcode byte is an illegal opcode (§4.1). -/
def decodeInstr (bytes : List Nat) : Option Op :=
  match bytes with
  | [opc, a, b, c, d, _, _, _] =>
    match opc with
    | 0 => some .exit
    | 1 => some (.movImm a (Int.ofNat d))
    | 2 => some (.add a b)
    | 3 => some (.jump c)
    | 4 => some (.jeqImm a (Int.ofNat d) c)
    | 5 => some (.load a c)
    | 6 => some (.store c a)
    | 7 => some (.call c)
    | 8 => some .ret
    | 9 => some (.syscall d)
    | _ => none
  | _ => none

/-- Splits a byte list into 8-byte instruction slots; only called on lists
whose length is a multiple of 8. -/
def chunks8 : List Nat → List (List Nat)
  | b0 :: b1 :: b2 :: b3 :: b4 :: b5 :: b6 :: b7 :: rest =>
    [b0, b1, b2, b3, b4, b5, b6, b7] :: chunks8 rest
  | _ => []

/-- Decodes every instruction slot of a program body, failing on the first
illegal opcode. -/
def decodeAll (body : List Nat) : Option (List Op) :=
  (chunks8 body).mapM decodeInstr

/-- Modelled from the spec: register usage must respect the fixed register
file width (§4.1). -/
def regsOK : Op → Bool
  | .movImm d _ => decide (d < NUM_REGISTERS)
  | .add d s => decide (d < NUM_REGISTERS) && decide (s < NUM_REGISTERS)
  | .jeqImm r _ _ => decide (r < NUM_REGISTERS)
  | .load d _ => decide (d < NUM_REGISTERS)
  | .store _ s => decide (s < NUM_REGISTERS)
  | _ => true

/-- Modelled from the spec: every control-transfer target must land on a valid
instruction boundary (§4.1). -/
def targetOK (len : Nat) : Op → Bool
  | .jump t => decide (t < len)
  | .jeqImm _ _ t => decide (t < len)
  | .call t => decide (t < len)
  | _ => true

/-- Modelled from the spec: the specific rejection kinds of the verifier
(bad format, illegal opcode, illegal jump target, ...) (§4.1). -/
inductive VerifyError where
  | badMagic
  | truncated
  | illegalOpcode
  | badRegister
  | illegalJumpTarget
deriving Repr, DecidableEq

/-- Modelled from the spec: static verification of a program image against a
machine configuration; rejects on the first structural violation with a
specific error kind, and is a pure function of the image and the
configuration (§4.1). -/
def verify (image : List Nat) (machine : sealevel_machine) :
    Except VerifyError (List Op) :=
  if image.take 4 ≠ ELF_MAGIC then .error .badMagic
  else if (image.drop 4).length % 8 ≠ 0 then .error .truncated
  else
    match decodeAll (image.drop 4) with
    | none => .error .illegalOpcode
    | some table =>
      if ¬ table.all regsOK then .error .badRegister
      else if ¬ table.all (targetOK table.length) then .error .illegalJumpTarget
      else
        let _ := machine
        .ok table

/-! ## Syscalls, the JIT target language and Program handles -/

/-- Modelled from the spec: a host-provided native syscall handler with a
fixed calling convention; `none` is a handler fault (§3, §4.2). -/
def SyscallFn : Type := Int → Option Int

/-- The map of syscalls provided by the virtual machine
(from `sealevel.h`, line 63; contents modelled from the spec §3). -/
def sealevel_syscall_registry : Type := List (Nat × SyscallFn)

/-- Modelled from the spec: one native instruction of the JIT target language;
the JIT translates each verified instruction into native code with identical
register semantics, bounds-checking, metering and syscall trampolines
(§4.3). -/
inductive NativeOp where
  | nMovImm (dst : Nat) (imm : Int)
  | nAdd (dst src : Nat)
  | nJump (target : Nat)
  | nJeqImm (r : Nat) (imm : Int) (target : Nat)
  | nLoad (dst : Nat) (addr : Nat)
  | nStore (addr : Nat) (src : Nat)
  | nCall (target : Nat)
  | nRet
  | nSyscall (n : Nat)
  | nExit
deriving Repr, DecidableEq

/-- A virtual machine program ready to be executed (from `sealevel.h`,
line 48; contents modelled from the spec §3: a verified immutable instruction
table, its bound syscall registry, and an optional compiled artifact). -/
structure sealevel_program where
  table : List Op
  syscalls : sealevel_syscall_registry
  compiled : Option (List NativeOp)

/-- Loads a Sealevel program from an ELF buffer and verifies its SBF bytecode,
consuming the given syscall registry (from `sealevel.h`, lines 115-123;
behaviour modelled from the spec §6, §7: on verification failure no Program is
constructed and the errno channel reports `INVALID_ELF`).  The second
component is the errno value the call leaves in the thread-local channel. -/
def sealevel_program_create (machine : sealevel_machine)
    (syscalls : sealevel_syscall_registry) (data : List Nat) :
    Option sealevel_program × Int :=
  match verify data machine with
  | .ok table => (some ⟨table, syscalls, none⟩, SEALEVEL_OK)
  | .error _ => (none, SEALEVEL_ERR_INVALID_ELF)

/-- Modelled from the spec: instruction-wise translation from verified
bytecode to native code (§4.3). -/
def compileOp : Op → NativeOp
  | .movImm d imm => .nMovImm d imm
  | .add d s => .nAdd d s
  | .jump t => .nJump t
  | .jeqImm r imm t => .nJeqImm r imm t
  | .load d a => .nLoad d a
  | .store a s => .nStore a s
  | .call t => .nCall t
  | .ret => .nRet
  | .syscall n => .nSyscall n
  | .exit => .nExit

/-- Compiles a program to native executable code (from `sealevel.h`,
lines 125-130; behaviour modelled from the spec §4.3: invoked at most once,
a compiled program never reverts and recompilation is a no-op).  The second
component is the errno value the call leaves in the thread-local channel. -/
def sealevel_program_jit_compile (p : sealevel_program) :
    sealevel_program × Int :=
  match p.compiled with
  | some _ => (p, SEALEVEL_OK)
  | none => (⟨p.table, p.syscalls, some (p.table.map compileOp)⟩, SEALEVEL_OK)

/-! ## Faults and the interpreter -/

/-- Modelled from the spec: the runtime fault taxonomy (§4.2, §7): access
violation carrying the offending address, compute budget exhaustion,
call-depth exhaustion, unresolved or failed syscalls, permission escalation
attempts, and an undecodable program counter. -/
inductive Fault where
  | accessViolation (addr : Nat)
  | computeBudgetExceeded
  | callDepthExceeded
  | unresolvedSyscall (n : Nat)
  | syscallFailed (n : Nat)
  | privilegeEscalation
  | badInstruction (pc : Nat)
deriving Repr, DecidableEq

/-- Modelled from the spec: the internal call-frame stack of one execution is
bounded by a fixed depth distinct from the cross-program call depth (§4.2). -/
def MAX_FRAMES : Nat := 64

/-- Modelled from the spec: the documented instruction-class cost table; every
class has positive cost so the budget bounds the step count (§4.2, §9). -/
def instrCost : Op → Nat
  | .load _ _ => 2
  | .store _ _ => 2
  | .syscall _ => 3
  | _ => 1

/-- Modelled from the spec: the interpreter state — a fixed-width register
file, a program counter, the internal call-frame stack, the remaining compute
budget and the mapped data region (§4.2). -/
structure VMState where
  regs : List Int
  pc : Nat
  frames : List Nat
  budget : Nat
  mem : List Int
deriving Repr, DecidableEq

/-- Result of one interpreter step: continue, terminate with a return value,
or fault. -/
inductive StepResult where
  | cont (s : VMState)
  | done (value : Int) (s : VMState)
  | fault (f : Fault) (s : VMState)
deriving Repr, DecidableEq

/-- Modelled from the spec: the effect of one decoded instruction on the
machine state, with bounds checks before every memory access, a bounded
internal call-frame stack, and total syscall lookup (§4.2). -/
def applyOp (sys : sealevel_syscall_registry) (op : Op) (s : VMState) :
    StepResult :=
  match op with
  | .movImm d imm => .cont { s with regs := s.regs.set d imm, pc := s.pc + 1 }
  | .add d src =>
    .cont { s with regs := s.regs.set d (s.regs.getD d 0 + s.regs.getD src 0),
                   pc := s.pc + 1 }
  | .jump t => .cont { s with pc := t }
  | .jeqImm r imm t =>
    if s.regs.getD r 0 = imm then .cont { s with pc := t }
    else .cont { s with pc := s.pc + 1 }
  | .load d a =>
    if a < s.mem.length then
      .cont { s with regs := s.regs.set d (s.mem.getD a 0), pc := s.pc + 1 }
    else .fault (.accessViolation a) s
  | .store a src =>
    if a < s.mem.length then
      .cont { s with mem := s.mem.set a (s.regs.getD src 0), pc := s.pc + 1 }
    else .fault (.accessViolation a) s
  | .call t =>
    if s.frames.length + 1 > MAX_FRAMES then .fault .callDepthExceeded s
    else .cont { s with frames := (s.pc + 1) :: s.frames, pc := t }
  | .ret =>
    match s.frames with
    | [] => .done (s.regs.getD 0 0) s
    | r :: rest => .cont { s with frames := rest, pc := r }
  | .syscall n =>
    match sys.lookup n with
    | none => .fault (.unresolvedSyscall n) s
    | some f =>
      match f (s.regs.getD 1 0) with
      | none => .fault (.syscallFailed n) s
      | some v => .cont { s with regs := s.regs.set 0 v, pc := s.pc + 1 }
  | .exit => .done (s.regs.getD 0 0) s

/-- Modelled from the spec: one interpreter step — fetch the instruction at
the program counter, charge its class cost against the budget (exhaustion is a
fault that consumes the remaining budget to zero), then apply it (§4.2,
§4.4). -/
def step (table : List Op) (sys : sealevel_syscall_registry) (s : VMState) :
    StepResult :=
  match table[s.pc]? with
  | none => .fault (.badInstruction s.pc) s
  | some op =>
    if s.budget < instrCost op then
      .fault .computeBudgetExceeded { s with budget := 0 }
    else applyOp sys op { s with budget := s.budget - instrCost op }

/-- Final outcome of running a program to completion or failure: the budget
left, the optional return value and the fault classification (§3,
Execution Result). -/
structure Outcome where
  finalBudget : Nat
  returnValue : Option Int
  fault : Option Fault
deriving Repr, DecidableEq

/-- Modelled from the spec: the interpreter loop, fuel-indexed; since every
instruction has positive cost the budget bounds the step count, so running out
of fuel beyond the budget is the same exhaustion fault (§4.2). -/
def interpRun (table : List Op) (sys : sealevel_syscall_registry) :
    Nat → VMState → Outcome
  | 0, _ => ⟨0, none, some .computeBudgetExceeded⟩
  | fuel + 1, s =>
    match step table sys s with
    | .cont s1 => interpRun table sys fuel s1
    | .done v s1 => ⟨s1.budget, some v, none⟩
    | .fault f s1 => ⟨s1.budget, none, some f⟩

/-! ## The native (JIT) executor -/

/-- Modelled from the spec: the per-class metering the JIT injects, matching
interpreter granularity (§4.3). -/
def nativeCost : NativeOp → Nat
  | .nLoad _ _ => 2
  | .nStore _ _ => 2
  | .nSyscall _ => 3
  | _ => 1

/-- Modelled from the spec: the effect of one native instruction; the JIT
emits identical register semantics, inlined bounds-checking and identical
syscall trampolines (§4.3). -/
def nativeApplyOp (sys : sealevel_syscall_registry) (op : NativeOp)
    (s : VMState) : StepResult :=
  match op with
  | .nMovImm d imm => .cont { s with regs := s.regs.set d imm, pc := s.pc + 1 }
  | .nAdd d src =>
    .cont { s with regs := s.regs.set d (s.regs.getD d 0 + s.regs.getD src 0),
                   pc := s.pc + 1 }
  | .nJump t => .cont { s with pc := t }
  | .nJeqImm r imm t =>
    if s.regs.getD r 0 = imm then .cont { s with pc := t }
    else .cont { s with pc := s.pc + 1 }
  | .nLoad d a =>
    if a < s.mem.length then
      .cont { s with regs := s.regs.set d (s.mem.getD a 0), pc := s.pc + 1 }
    else .fault (.accessViolation a) s
  | .nStore a src =>
    if a < s.mem.length then
      .cont { s with mem := s.mem.set a (s.regs.getD src 0), pc := s.pc + 1 }
    else .fault (.accessViolation a) s
  | .nCall t =>
    if s.frames.length + 1 > MAX_FRAMES then .fault .callDepthExceeded s
    else .cont { s with frames := (s.pc + 1) :: s.frames, pc := t }
  | .nRet =>
    match s.frames with
    | [] => .done (s.regs.getD 0 0) s
    | r :: rest => .cont { s with frames := rest, pc := r }
  | .nSyscall n =>
    match sys.lookup n with
    | none => .fault (.unresolvedSyscall n) s
    | some f =>
      match f (s.regs.getD 1 0) with
      | none => .fault (.syscallFailed n) s
      | some v => .cont { s with regs := s.regs.set 0 v, pc := s.pc + 1 }
  | .nExit => .done (s.regs.getD 0 0) s

/-- Modelled from the spec: one step of the compiled artifact — fetch, inject
the budget check, apply (§4.3). -/
def nativeStep (code : List NativeOp) (sys : sealevel_syscall_registry)
    (s : VMState) : StepResult :=
  match code[s.pc]? with
  | none => .fault (.badInstruction s.pc) s
  | some op =>
    if s.budget < nativeCost op then
      .fault .computeBudgetExceeded { s with budget := 0 }
    else nativeApplyOp sys op { s with budget := s.budget - nativeCost op }

/-- Modelled from the spec: the execution loop of the compiled artifact,
fuel-indexed exactly as the interpreter loop (§4.3). -/
def nativeRun (code : List NativeOp) (sys : sealevel_syscall_registry) :
    Nat → VMState → Outcome
  | 0, _ => ⟨0, none, some .computeBudgetExceeded⟩
  | fuel + 1, s =>
    match nativeStep code sys s with
    | .cont s1 => nativeRun code sys fuel s1
    | .done v s1 => ⟨s1.budget, some v, none⟩
    | .fault f s1 => ⟨s1.budget, none, some f⟩

/-! ## Program-level execution -/

/-- Execution Result as the host sees it: compute units consumed, optional
return data, fault classification (§3). -/
structure ExecutionResult where
  unitsConsumed : Nat
  returnValue : Option Int
  fault : Option Fault
deriving Repr, DecidableEq

/-- Converts a final Outcome into the Execution Result reported to the host:
units consumed are the initial budget minus what is left. -/
def outcomeToResult (initialBudget : Nat) (o : Outcome) : ExecutionResult :=
  ⟨initialBudget - o.finalBudget, o.returnValue, o.fault⟩

/-- Modelled from the spec: the entry state of one execution — zeroed
registers except the instruction-data length and the account count, the
program counter at the entry routine, an empty frame stack, the granted
budget, and the instruction data as the mapped data region (§4.2). -/
def initVMState (budget : Nat) (data : List Int)
    (accounts : List sealevel_instruction_account) : VMState :=
  ⟨((List.replicate NUM_REGISTERS (0 : Int)).set 1
      (Int.ofNat data.length)).set 2 (Int.ofNat accounts.length),
   0, [], budget, data⟩

/-- Modelled from the spec: running a program through the interpreter path
(§4.2). -/
def interpExec (p : sealevel_program) (budget : Nat) (data : List Int)
    (accounts : List sealevel_instruction_account) : ExecutionResult :=
  outcomeToResult budget
    (interpRun p.table p.syscalls (budget + 1) (initVMState budget data accounts))

/-- Modelled from the spec: running a program through its compiled artifact
when present, falling back to the interpreter otherwise — two implementations
of one interface selected on the Program (§4.3, §9). -/
def jitExec (p : sealevel_program) (budget : Nat) (data : List Int)
    (accounts : List sealevel_instruction_account) : ExecutionResult :=
  match p.compiled with
  | some code =>
    outcomeToResult budget
      (nativeRun code p.syscalls (budget + 1) (initVMState budget data accounts))
  | none => interpExec p budget data accounts

/-! ## Invoke context and the call-depth state machine -/

/-- The invoke context holds the state of a single transaction execution
(from `sealevel.h`, lines 32-38; contents modelled from the spec §3: the
configured maximum call depth, the stack of account-permission sets of the
active invocations — its length is the current call depth — and the
transaction-wide remaining compute units). -/
structure sealevel_invoke_context where
  maxDepth : Nat
  permStack : List (List sealevel_instruction_account)
  remaining : Nat
deriving Repr, DecidableEq

/-- Current call depth of an invoke context: the number of active
invocations. -/
def depth (ctx : sealevel_invoke_context) : Nat :=
  ctx.permStack.length

/-- Modelled from the spec: one account access is covered by another when it
names the same transaction account and claims no flag the other lacks (§3). -/
def accountLEb (a b : sealevel_instruction_account) : Bool :=
  decide (a.index_in_transaction = b.index_in_transaction) &&
    (!a.is_signer || b.is_signer) && (!a.is_writable || b.is_writable)

/-- Modelled from the spec: a callee permission set is covered by a caller
permission set when every access it claims is covered by some access of the
caller (§3, §4.4). -/
def permLE (callee caller : List sealevel_instruction_account) : Bool :=
  callee.all fun a => caller.any fun b => accountLEb a b

/-- Transaction-account indices an account list may write. -/
def writableIdx (l : List sealevel_instruction_account) : List Nat :=
  (l.filter fun a => a.is_writable).map fun a => a.index_in_transaction

/-- Modelled from the spec: an entry permission request is acceptable when the
context is at top level (the permissions come from the transaction itself) or
when it is covered by the direct caller's permission set (§4.4). -/
def permOKtop (stack : List (List sealevel_instruction_account))
    (accounts : List sealevel_instruction_account) : Bool :=
  match stack with
  | [] => true
  | caller :: _ => permLE accounts caller

/-- Modelled from the spec: the shape of one instruction processing as the
invoke context sees it — a callee instruction is a sequence of chargeable
bytecode instructions and nested cross-program invocations, each nested
invocation carrying its requested account permission set (§4.4, §5). -/
inductive Invocation where
  | nop
  | instr (cost : Nat)
  | seq (a b : Invocation)
  | invoke (accounts : List sealevel_instruction_account) (body : Invocation)
deriving Repr, DecidableEq

/-- Every chargeable step of an invocation has positive cost (the documented
cost table assigns every instruction class a positive cost). -/
def costsPos : Invocation → Bool
  | .nop => true
  | .instr c => decide (1 ≤ c)
  | .seq a b => costsPos a && costsPos b
  | .invoke _ body => costsPos body

/-- Adjacent permission sets on an invoke-context stack are non-expanding:
each set is covered by the one below it. -/
def stackMono : List (List sealevel_instruction_account) → Bool
  | a :: b :: rest => permLE a b && stackMono (b :: rest)
  | _ => true

/-- Observable outcome of processing an invocation: the invoke context after
the call, the fault classification, the number of callee instructions that
actually executed, and the permission stacks observed at each successful
invocation entry. -/
structure RunOut where
  ctx : sealevel_invoke_context
  fault : Option Fault
  instrs : Nat
  entered : List (List (List sealevel_instruction_account))
deriving Repr, DecidableEq

/-- Modelled from the spec: the call-depth state machine (§4.4).  Entering an
invocation first checks the configured maximum depth (exceeding it faults with
`CallDepthExceeded` before any instruction of the callee runs and leaves the
context unchanged), then checks that the requested permissions are covered by
the caller's (escalation is a fault, not a silent narrowing), then pushes the
permission set, runs the body, and pops on the way out whether or not the body
faulted.  Chargeable instructions decrement the transaction-wide budget; a
charge that would drive it below zero instead faults with the remaining budget
consumed to zero.  A fault aborts the rest of the invocation and propagates. -/
def runBody (ctx : sealevel_invoke_context) : Invocation → RunOut
  | .nop => ⟨ctx, none, 0, []⟩
  | .instr c =>
    if c ≤ ctx.remaining then
      ⟨{ ctx with remaining := ctx.remaining - c }, none, 1, []⟩
    else ⟨{ ctx with remaining := 0 }, some .computeBudgetExceeded, 0, []⟩
  | .seq a b =>
    let ra := runBody ctx a
    if ra.fault.isSome then ra
    else
      let rb := runBody ra.ctx b
      ⟨rb.ctx, rb.fault, ra.instrs + rb.instrs, ra.entered ++ rb.entered⟩
  | .invoke accounts body =>
    if ctx.maxDepth < ctx.permStack.length + 1 then
      ⟨ctx, some .callDepthExceeded, 0, []⟩
    else if permOKtop ctx.permStack accounts then
      let r := runBody { ctx with permStack := accounts :: ctx.permStack } body
      ⟨{ r.ctx with permStack := r.ctx.permStack.tail }, r.fault, r.instrs,
       (accounts :: ctx.permStack) :: r.entered⟩
    else ⟨ctx, some .privilegeEscalation, 0, []⟩

/-- Translation from a runtime fault to the errno value reported at the
boundary (the header exposes a dedicated code only for call-depth
exhaustion). -/
def faultErrno : Option Fault → Int
  | none => SEALEVEL_OK
  | some .callDepthExceeded => SEALEVEL_ERR_CALL_DEPTH_EXCEEDED
  | some _ => SEALEVEL_ERR_UNKNOWN

/-- Processes a transaction instruction and sets `sealevel_errno` (from
`sealevel.h`, lines 103-113; behaviour modelled from the spec §4.4: the only
entry point that advances the call-depth state machine).  Returns the invoke
context after the call, the errno value left in the thread-local channel, and
the compute units consumed. -/
def sealevel_process_instruction (ctx : sealevel_invoke_context)
    (accounts : List sealevel_instruction_account) (body : Invocation) :
    sealevel_invoke_context × Int × Nat :=
  let r := runBody ctx (.invoke accounts body)
  (r.ctx, faultErrno r.fault, ctx.remaining - r.ctx.remaining)

/-- Executes a Sealevel program with the given instruction data and accounts;
unlike `sealevel_process_instruction`, does not progress the transaction
context state machine (from `sealevel.h`, lines 132-142; behaviour modelled
from the spec §4.4, §6: runs against the given invoke-context snapshot without
pushing or popping state, returning only the consumed compute units).  The
second component is the invoke context as the call leaves it. -/
def sealevel_program_execute (p : sealevel_program)
    (ctx : sealevel_invoke_context) (data : List Int)
    (accounts : List sealevel_instruction_account) :
    Nat × sealevel_invoke_context :=
  ((jitExec p ctx.remaining data accounts).unitsConsumed, ctx)

/-! ## Thread-local error channel -/

/-- Modelled from the spec: the error kinds the boundary can report through
the thread-local channel (§6). -/
inductive ApiError where
  | invalidElf
  | syscallRegistration
  | callDepthExceeded
  | unknown
deriving Repr, DecidableEq

/-- Stable numeric code of each boundary error kind (§6). -/
def apiErrorCode : ApiError → Int
  | .invalidElf => SEALEVEL_ERR_INVALID_ELF
  | .syscallRegistration => SEALEVEL_ERR_SYSCALL_REGISTRATION
  | .callDepthExceeded => SEALEVEL_ERR_CALL_DEPTH_EXCEEDED
  | .unknown => SEALEVEL_ERR_UNKNOWN

/-- Human-readable detail of each boundary error kind (§6). -/
def apiErrorMessage : ApiError → String
  | .invalidElf => "invalid ELF"
  | .syscallRegistration => "syscall registration failed"
  | .callDepthExceeded => "call depth exceeded"
  | .unknown => "unknown error"

/-- Modelled from the spec: the per-thread boundary state — the last seen
error, the error strings handed out and not yet released, and the ambient
invoke context the thread is driving (§5, §6). -/
structure ThreadState where
  lastError : Option ApiError
  liveStrings : List String
  ctx : sealevel_invoke_context
deriving Repr, DecidableEq

/-- Returns the error code of this thread's last seen error (from
`sealevel.h`, lines 69-72; behaviour modelled from the spec §6). -/
def sealevel_errno (st : ThreadState) : Int :=
  match st.lastError with
  | none => SEALEVEL_OK
  | some e => apiErrorCode e

/-- Returns a UTF-8 string of this thread's last seen error, or NULL if
`sealevel_errno() == SEALEVEL_OK` (from `sealevel.h`, lines 74-80; behaviour
modelled from the spec §6). -/
def sealevel_strerror (st : ThreadState) : Option String :=
  st.lastError.map apiErrorMessage

/-- Frees an unused error string gained from `sealevel_strerror`; calling
this with a NULL pointer is a no-op (from `sealevel.h`, lines 82-86;
behaviour modelled from the header doc and the spec §6). -/
def sealevel_strerror_free (ptr : Option String) (st : ThreadState) :
    ThreadState :=
  match ptr with
  | none => st
  | some s => { st with liveStrings := st.liveStrings.erase s }

/-- Modelled from the spec: mapping a runtime fault to the boundary error
kind (§6, §7). -/
def faultApiError : Fault → ApiError
  | .callDepthExceeded => .callDepthExceeded
  | _ => .unknown

/-- Modelled from the spec: one operation of the public API as observed by the
thread-local error channel (§6). -/
inductive ApiOp where
  | opProgramCreate (machine : sealevel_machine) (image : List Nat)
  | opProcessInstruction (accounts : List sealevel_instruction_account)
      (body : Invocation)
  | opJitCompile
  | opStrerrorFree (ptr : Option String)
deriving Repr, DecidableEq

/-- Modelled from the spec: the effect of each API operation on the per-thread
state — every core operation's result is translated into the thread-local
last-error convention at the boundary (§6, §9). -/
def stepApi (st : ThreadState) : ApiOp → ThreadState
  | .opProgramCreate machine image =>
    match verify image machine with
    | .ok _ => { st with lastError := none }
    | .error _ => { st with lastError := some .invalidElf }
  | .opProcessInstruction accounts body =>
    let r := runBody st.ctx (.invoke accounts body)
    { st with ctx := r.ctx, lastError := r.fault.map faultApiError }
  | .opJitCompile => { st with lastError := none }
  | .opStrerrorFree ptr => sealevel_strerror_free ptr st

/-- Runs a sequence of API operations against a thread state. -/
def runApi (st : ThreadState) (ops : List ApiOp) : ThreadState :=
  ops.foldl stepApi st

/-- A fresh thread state: no error seen, no outstanding strings. -/
def initThread (ctx : sealevel_invoke_context) : ThreadState :=
  ⟨none, [], ctx⟩

/-! ## Malformation predicates and concrete inputs -/

/-- An image whose magic bytes are wrong. -/
def imageBadMagic (image : List Nat) : Prop :=
  image.take 4 ≠ ELF_MAGIC

/-- An image with correct magic whose instruction body is cut short of an
instruction boundary. -/
def imageTruncated (image : List Nat) : Prop :=
  image.take 4 = ELF_MAGIC ∧ (image.drop 4).length % 8 ≠ 0

/-- A decodable image one of whose control transfers targets no valid
instruction boundary. -/
def imageIllegalJump (image : List Nat) : Prop :=
  image.take 4 = ELF_MAGIC ∧ (image.drop 4).length % 8 = 0 ∧
    ∃ table, decodeAll (image.drop 4) = some table ∧
      table.all regsOK = true ∧ table.all (targetOK table.length) = false

/-- A minimal well-formed image: the magic bytes followed by one `exit`
instruction. -/
def exitImage : List Nat :=
  ELF_MAGIC ++ [0, 0, 0, 0, 0, 0, 0, 0]

/-- A small machine configuration used for concrete runs. -/
def defaultMachine : sealevel_machine :=
  ⟨64, 4096, 4096⟩

/-- The program `sealevel_program_create` builds from `exitImage` with an
empty registry. -/
def exitProgram : sealevel_program :=
  ⟨[.exit], [], none⟩

/-! ## The JIT path refines the interpreter path -/

/-- The compiled form of every instruction is metered at the same class cost
as the interpreter charges. -/
theorem nativeCost_compileOp (op : Op) : nativeCost (compileOp op) = instrCost op := by
  cases op <;> rfl

/-- The compiled form of every instruction has the effect the interpreter
gives the source instruction. -/
theorem nativeApplyOp_compileOp (sys : sealevel_syscall_registry) (op : Op)
    (s : VMState) : nativeApplyOp sys (compileOp op) s = applyOp sys op s := by
  cases op <;> rfl

/-- One step of the compiled artifact agrees with one interpreter step. -/
theorem nativeStep_compile (table : List Op) (sys : sealevel_syscall_registry)
    (s : VMState) : nativeStep (table.map compileOp) sys s = step table sys s := by
  unfold nativeStep step
  rw [List.getElem?_map]
  cases table[s.pc]? with
  | none => rfl
  | some op => simp [nativeCost_compileOp, nativeApplyOp_compileOp]

/-- Running the compiled artifact agrees with running the interpreter, step
for step. -/
theorem nativeRun_compile (table : List Op) (sys : sealevel_syscall_registry) :
    ∀ (fuel : Nat) (s : VMState),
      nativeRun (table.map compileOp) sys fuel s = interpRun table sys fuel s := by
  intro fuel
  induction fuel with
  | zero => intro s; rfl
  | succ n ih =>
    intro s
    unfold nativeRun interpRun
    rw [nativeStep_compile]
    cases step table sys s <;> simp [ih]

/-! ## Frame and invariant lemmas for the call-depth state machine -/

/-- Processing an invocation is push/pop balanced: the permission stack and
the configured maximum are restored on exit, success or fault. -/
theorem runBody_frame (inv : Invocation) : ∀ ctx : sealevel_invoke_context,
    (runBody ctx inv).ctx.permStack = ctx.permStack ∧
    (runBody ctx inv).ctx.maxDepth = ctx.maxDepth := by
  induction inv with
  | nop => intro ctx; exact ⟨rfl, rfl⟩
  | instr c =>
    intro ctx
    simp only [runBody]
    by_cases hc : c ≤ ctx.remaining
    · rw [if_pos hc]; exact ⟨rfl, rfl⟩
    · rw [if_neg hc]; exact ⟨rfl, rfl⟩
  | seq a b iha ihb =>
    intro ctx
    simp only [runBody]
    by_cases hf : (runBody ctx a).fault.isSome = true
    · rw [if_pos hf]; exact iha ctx
    · rw [if_neg hf]
      refine ⟨?_, ?_⟩
      · show (runBody (runBody ctx a).ctx b).ctx.permStack = ctx.permStack
        rw [(ihb _).1, (iha ctx).1]
      · show (runBody (runBody ctx a).ctx b).ctx.maxDepth = ctx.maxDepth
        rw [(ihb _).2, (iha ctx).2]
  | invoke accounts body ih =>
    intro ctx
    simp only [runBody]
    by_cases h1 : ctx.maxDepth < ctx.permStack.length + 1
    · rw [if_pos h1]; exact ⟨rfl, rfl⟩
    · rw [if_neg h1]
      by_cases h2 : permOKtop ctx.permStack accounts = true
      · rw [if_pos h2]
        refine ⟨?_, ?_⟩
        · show ((runBody { ctx with permStack := accounts :: ctx.permStack }
              body).ctx.permStack).tail = ctx.permStack
          rw [(ih _).1]
          all_goals simp
        · show (runBody { ctx with permStack := accounts :: ctx.permStack }
              body).ctx.maxDepth = ctx.maxDepth
          have h3 := (ih { ctx with permStack := accounts :: ctx.permStack }).2
          simpa using h3
      · rw [if_neg h2]; exact ⟨rfl, rfl⟩

/-- The transaction-wide compute counter never increases across an
invocation. -/
theorem runBody_remaining_le (inv : Invocation) : ∀ ctx : sealevel_invoke_context,
    (runBody ctx inv).ctx.remaining ≤ ctx.remaining := by
  induction inv with
  | nop => intro ctx; exact Nat.le_refl _
  | instr c =>
    intro ctx
    simp only [runBody]
    by_cases hc : c ≤ ctx.remaining
    · rw [if_pos hc]; exact Nat.sub_le _ _
    · rw [if_neg hc]; exact Nat.zero_le _
  | seq a b iha ihb =>
    intro ctx
    simp only [runBody]
    by_cases hf : (runBody ctx a).fault.isSome = true
    · rw [if_pos hf]; all_goals exact iha ctx
    · rw [if_neg hf]
      all_goals exact Nat.le_trans (ihb _) (iha ctx)
  | invoke accounts body ih =>
    intro ctx
    simp only [runBody]
    by_cases h1 : ctx.maxDepth < ctx.permStack.length + 1
    · rw [if_pos h1]
    · rw [if_neg h1]
      by_cases h2 : permOKtop ctx.permStack accounts = true
      · rw [if_pos h2]
        all_goals exact ih { ctx with permStack := accounts :: ctx.permStack }
      · rw [if_neg h2]

/-- A budget-exhaustion fault always reports the remaining budget consumed to
exactly zero. -/
theorem runBody_budget_fault (inv : Invocation) : ∀ ctx : sealevel_invoke_context,
    (runBody ctx inv).fault = some .computeBudgetExceeded →
    (runBody ctx inv).ctx.remaining = 0 := by
  induction inv with
  | nop => intro ctx h; exact absurd h (by simp [runBody])
  | instr c =>
    intro ctx h
    simp only [runBody] at h ⊢
    by_cases hc : c ≤ ctx.remaining
    · rw [if_pos hc] at h; simp at h
    · rw [if_neg hc] at h ⊢
  | seq a b iha ihb =>
    intro ctx h
    simp only [runBody] at h ⊢
    by_cases hf : (runBody ctx a).fault.isSome = true
    · rw [if_pos hf] at h ⊢; exact iha ctx h
    · rw [if_neg hf] at h ⊢; exact ihb _ h
  | invoke accounts body ih =>
    intro ctx h
    simp only [runBody] at h ⊢
    by_cases h1 : ctx.maxDepth < ctx.permStack.length + 1
    · rw [if_pos h1] at h; simp at h
    · rw [if_neg h1] at h ⊢
      by_cases h2 : permOKtop ctx.permStack accounts = true
      · rw [if_pos h2] at h ⊢; exact ih _ h
      · rw [if_neg h2] at h; simp at h

/-- Once the transaction-wide counter is zero, no further callee instruction
executes: with the cost table's positive costs, any attempt immediately
re-faults. -/
theorem runBody_zero_budget (inv : Invocation) : ∀ ctx : sealevel_invoke_context,
    costsPos inv = true → ctx.remaining = 0 → (runBody ctx inv).instrs = 0 := by
  induction inv with
  | nop => intro ctx _ _; rfl
  | instr c =>
    intro ctx hpos hz
    simp only [costsPos, decide_eq_true_eq] at hpos
    have hc : ¬ c ≤ ctx.remaining := by omega
    simp only [runBody]
    rw [if_neg hc]
  | seq a b iha ihb =>
    intro ctx hpos hz
    simp only [costsPos, Bool.and_eq_true] at hpos
    have hra : (runBody ctx a).instrs = 0 := iha ctx hpos.1 hz
    have hrem : (runBody ctx a).ctx.remaining = 0 := by
      have := runBody_remaining_le a ctx
      omega
    simp only [runBody]
    by_cases hf : (runBody ctx a).fault.isSome = true
    · rw [if_pos hf]; exact hra
    · rw [if_neg hf]
      show (runBody ctx a).instrs + (runBody (runBody ctx a).ctx b).instrs = 0
      rw [hra, ihb _ hpos.2 hrem]
  | invoke accounts body ih =>
    intro ctx hpos hz
    simp only [costsPos] at hpos
    simp only [runBody]
    by_cases h1 : ctx.maxDepth < ctx.permStack.length + 1
    · rw [if_pos h1]
    · rw [if_neg h1]
      by_cases h2 : permOKtop ctx.permStack accounts = true
      · rw [if_pos h2]
        show (runBody { ctx with permStack := accounts :: ctx.permStack }
            body).instrs = 0
        exact ih _ hpos hz
      · rw [if_neg h2]

/-- Pushing an entry permission set accepted against a non-expanding stack
keeps the stack non-expanding. -/
theorem stackMono_cons (stack : List (List sealevel_instruction_account))
    (accounts : List sealevel_instruction_account)
    (hok : permOKtop stack accounts = true) (hmono : stackMono stack = true) :
    stackMono (accounts :: stack) = true := by
  cases stack with
  | nil => rfl
  | cons caller rest =>
    simp only [permOKtop] at hok
    simp only [stackMono, Bool.and_eq_true]
    exact ⟨hok, hmono⟩

/-- Every permission stack observed at an invocation entry respects the
configured maximum call depth, provided the starting stack does. -/
theorem runBody_entered_depth (inv : Invocation) : ∀ ctx : sealevel_invoke_context,
    ctx.permStack.length ≤ ctx.maxDepth →
    ∀ s ∈ (runBody ctx inv).entered, s.length ≤ ctx.maxDepth := by
  induction inv with
  | nop => intro ctx _ s hs; exact absurd hs (by simp [runBody])
  | instr c =>
    intro ctx _ s hs
    simp only [runBody] at hs
    by_cases hc : c ≤ ctx.remaining
    · rw [if_pos hc] at hs; exact absurd hs (by simp)
    · rw [if_neg hc] at hs; exact absurd hs (by simp)
  | seq a b iha ihb =>
    intro ctx hd s hs
    simp only [runBody] at hs
    by_cases hf : (runBody ctx a).fault.isSome = true
    · rw [if_pos hf] at hs; exact iha ctx hd s hs
    · rw [if_neg hf] at hs
      have hmem : s ∈ (runBody ctx a).entered ++
          (runBody (runBody ctx a).ctx b).entered := hs
      rcases List.mem_append.mp hmem with hmem1 | hmem2
      · exact iha ctx hd s hmem1
      · have hfr := runBody_frame a ctx
        have hd2 : (runBody ctx a).ctx.permStack.length ≤
            (runBody ctx a).ctx.maxDepth := by rw [hfr.1, hfr.2]; exact hd
        have := ihb (runBody ctx a).ctx hd2 s hmem2
        rw [hfr.2] at this
        exact this
  | invoke accounts body ih =>
    intro ctx hd s hs
    simp only [runBody] at hs
    by_cases h1 : ctx.maxDepth < ctx.permStack.length + 1
    · rw [if_pos h1] at hs; exact absurd hs (by simp)
    · rw [if_neg h1] at hs
      by_cases h2 : permOKtop ctx.permStack accounts = true
      · rw [if_pos h2] at hs
        have hmem : s ∈ (accounts :: ctx.permStack) ::
            (runBody { ctx with permStack := accounts :: ctx.permStack }
              body).entered := hs
        rcases List.mem_cons.mp hmem with rfl | hmem2
        · simp only [List.length_cons]
          omega
        · have hd2 : (accounts :: ctx.permStack).length ≤ ctx.maxDepth := by
            simp only [List.length_cons]; omega
          exact ih { ctx with permStack := accounts :: ctx.permStack } hd2 s hmem2
      · rw [if_neg h2] at hs; exact absurd hs (by simp)

/-- Every permission stack observed at an invocation entry is non-expanding
(each pushed set is covered by the one below it), provided the starting stack
is. -/
theorem runBody_entered_mono (inv : Invocation) : ∀ ctx : sealevel_invoke_context,
    stackMono ctx.permStack = true →
    ∀ s ∈ (runBody ctx inv).entered, stackMono s = true := by
  induction inv with
  | nop => intro ctx _ s hs; exact absurd hs (by simp [runBody])
  | instr c =>
    intro ctx _ s hs
    simp only [runBody] at hs
    by_cases hc : c ≤ ctx.remaining
    · rw [if_pos hc] at hs; exact absurd hs (by simp)
    · rw [if_neg hc] at hs; exact absurd hs (by simp)
  | seq a b iha ihb =>
    intro ctx hm s hs
    simp only [runBody] at hs
    by_cases hf : (runBody ctx a).fault.isSome = true
    · rw [if_pos hf] at hs; exact iha ctx hm s hs
    · rw [if_neg hf] at hs
      have hmem : s ∈ (runBody ctx a).entered ++
          (runBody (runBody ctx a).ctx b).entered := hs
      rcases List.mem_append.mp hmem with hmem1 | hmem2
      · exact iha ctx hm s hmem1
      · have hfr := runBody_frame a ctx
        have hm2 : stackMono (runBody ctx a).ctx.permStack = true := by
          rw [hfr.1]; exact hm
        exact ihb (runBody ctx a).ctx hm2 s hmem2
  | invoke accounts body ih =>
    intro ctx hm s hs
    simp only [runBody] at hs
    by_cases h1 : ctx.maxDepth < ctx.permStack.length + 1
    · rw [if_pos h1] at hs; exact absurd hs (by simp)
    · rw [if_neg h1] at hs
      by_cases h2 : permOKtop ctx.permStack accounts = true
      · rw [if_pos h2] at hs
        have hmem : s ∈ (accounts :: ctx.permStack) ::
            (runBody { ctx with permStack := accounts :: ctx.permStack }
              body).entered := hs
        have hpush : stackMono (accounts :: ctx.permStack) = true :=
          stackMono_cons ctx.permStack accounts h2 hm
        rcases List.mem_cons.mp hmem with rfl | hmem2
        · exact hpush
        · exact ih { ctx with permStack := accounts :: ctx.permStack } hpush s hmem2
      · rw [if_neg h2] at hs; exact absurd hs (by simp)

/-! ## Claim theorems -/

/-- C1: for every verified program and every input (instruction data and
accounts), executing via the JIT-compiled path and via the interpreter path
produces identical results: the compute units consumed are equal and the
fault classification is identical between the two paths. -/
theorem jit_interp_equivalence (m : sealevel_machine)
    (sys : sealevel_syscall_registry) (img : List Nat) (p : sealevel_program)
    (hp : (sealevel_program_create m sys img).1 = some p)
    (budget : Nat) (data : List Int)
    (accounts : List sealevel_instruction_account) :
    (jitExec (sealevel_program_jit_compile p).1 budget data accounts).unitsConsumed
        = (interpExec p budget data accounts).unitsConsumed ∧
    (jitExec (sealevel_program_jit_compile p).1 budget data accounts).fault
        = (interpExec p budget data accounts).fault := by
  have hkey : jitExec (sealevel_program_jit_compile p).1 budget data accounts
      = interpExec p budget data accounts := by
    unfold sealevel_program_create at hp
    cases hverify : verify img m with
    | error e => rw [hverify] at hp; simp at hp
    | ok table =>
      rw [hverify] at hp
      simp only [Option.some.injEq] at hp
      subst hp
      show jitExec ⟨table, sys, some (table.map compileOp)⟩ budget data accounts
          = interpExec ⟨table, sys, none⟩ budget data accounts
      unfold jitExec interpExec
      simp only
      rw [nativeRun_compile]
  exact ⟨by rw [hkey], by rw [hkey]⟩

/-- Witness for C1 at a concrete verified program: the minimal image whose
single instruction is `exit`, with an empty registry, budget 10 and empty
inputs. -/
theorem jit_interp_equivalence_witness :
    (jitExec (sealevel_program_jit_compile exitProgram).1 10 [] []).unitsConsumed
        = (interpExec exitProgram 10 [] []).unitsConsumed ∧
    (jitExec (sealevel_program_jit_compile exitProgram).1 10 [] []).fault
        = (interpExec exitProgram 10 [] []).fault :=
  jit_interp_equivalence defaultMachine [] exitImage exitProgram rfl 10 [] []

/-- C2: across every sequence of `process_instruction` calls (including
nested cross-program invocations), the invoke context's call depth never
exceeds the configured maximum; an invocation that would exceed it faults
with `CALL_DEPTH_EXCEEDED` before any instruction of the callee runs
(zero callee instructions execute), and the depth after the faulting call
equals the depth before it (the context is returned unchanged). -/
theorem call_depth_never_exceeded (ctx : sealevel_invoke_context)
    (inv : Invocation) (accounts : List sealevel_instruction_account)
    (body : Invocation) :
    (ctx.permStack.length ≤ ctx.maxDepth →
      ∀ s ∈ (runBody ctx inv).entered, s.length ≤ ctx.maxDepth) ∧
    (ctx.maxDepth < ctx.permStack.length + 1 →
      runBody ctx (.invoke accounts body)
          = ⟨ctx, some .callDepthExceeded, 0, []⟩ ∧
      sealevel_process_instruction ctx accounts body
          = (ctx, SEALEVEL_ERR_CALL_DEPTH_EXCEEDED, 0)) := by
  refine ⟨runBody_entered_depth inv ctx, fun hover => ?_⟩
  have hrb : runBody ctx (.invoke accounts body)
      = ⟨ctx, some .callDepthExceeded, 0, []⟩ := by
    simp only [runBody]
    rw [if_pos hover]
  refine ⟨hrb, ?_⟩
  unfold sealevel_process_instruction
  rw [hrb]
  simp [faultErrno]

/-- Witness for C2 at concrete inputs: a context one level below its maximum
running a nested invocation stays within bounds, and a context whose maximum
is zero faults with the dedicated code, unchanged. -/
theorem call_depth_never_exceeded_witness :
    (∀ s ∈ (runBody ⟨1, [], 9⟩ (.invoke [] (.instr 1))).entered,
      s.length ≤ 1) ∧
    runBody ⟨0, [], 9⟩ (.invoke [] .nop)
        = ⟨⟨0, [], 9⟩, some .callDepthExceeded, 0, []⟩ := by
  refine ⟨?_, ?_⟩
  · exact (call_depth_never_exceeded ⟨1, [], 9⟩ (.invoke [] (.instr 1))
      [] .nop).1 (by decide)
  · exact ((call_depth_never_exceeded ⟨0, [], 9⟩ .nop [] .nop).2 (by decide)).1

/-- C3: for every malformed program image (truncated, bad magic, or
containing an illegal jump target), `sealevel_program_create` constructs no
program and sets the thread-local errno to `INVALID_ELF`. -/
theorem program_create_rejects_malformed (m : sealevel_machine)
    (sys : sealevel_syscall_registry) (image : List Nat)
    (h : imageBadMagic image ∨ imageTruncated image ∨ imageIllegalJump image) :
    sealevel_program_create m sys image = (none, SEALEVEL_ERR_INVALID_ELF) := by
  unfold sealevel_program_create verify
  rcases h with hbad | ⟨h1, h2⟩ | ⟨h1, h2, table, hdec, hregs, htgt⟩
  · have hbad2 : image.take 4 ≠ ELF_MAGIC := hbad
    simp [hbad2]
  · rw [List.length_drop] at h2
    simp [h1, h2]
  · rw [List.length_drop] at h2
    simp [h1, h2, hdec, hregs, htgt]

/-- Witness for C3 at concrete malformed images: the empty image (bad magic),
a magic-only image with a dangling byte (truncated), and a one-instruction
image whose jump targets past the end (illegal jump target). -/
theorem program_create_rejects_malformed_witness :
    sealevel_program_create defaultMachine [] []
        = (none, SEALEVEL_ERR_INVALID_ELF) ∧
    sealevel_program_create defaultMachine [] (ELF_MAGIC ++ [0])
        = (none, SEALEVEL_ERR_INVALID_ELF) ∧
    sealevel_program_create defaultMachine []
        (ELF_MAGIC ++ [3, 0, 0, 9, 0, 0, 0, 0])
        = (none, SEALEVEL_ERR_INVALID_ELF) := by
  refine ⟨?_, ?_, ?_⟩
  · exact program_create_rejects_malformed defaultMachine [] []
      (Or.inl (by decide : ([] : List Nat).take 4 ≠ ELF_MAGIC))
  · exact program_create_rejects_malformed defaultMachine [] (ELF_MAGIC ++ [0])
      (Or.inr (Or.inl ⟨by decide, by decide⟩))
  · exact program_create_rejects_malformed defaultMachine []
      (ELF_MAGIC ++ [3, 0, 0, 9, 0, 0, 0, 0])
      (Or.inr (Or.inr ⟨by decide, by decide, [.jump 9], by decide, by decide,
        by decide⟩))

/-- C4: after every sequence of API operations started on a fresh thread,
`sealevel_strerror` returns null exactly when `sealevel_errno` equals
`SEALEVEL_OK`. -/
theorem strerror_null_iff_ok (ctx0 : sealevel_invoke_context)
    (ops : List ApiOp) :
    sealevel_strerror (runApi (initThread ctx0) ops) = none ↔
      sealevel_errno (runApi (initThread ctx0) ops) = SEALEVEL_OK := by
  generalize runApi (initThread ctx0) ops = st
  cases h : st.lastError with
  | none => simp [sealevel_strerror, sealevel_errno, h]
  | some e =>
    simp only [sealevel_strerror, sealevel_errno, h, Option.map_some]
    constructor
    · intro hc; exact absurd hc (by simp)
    · intro hc
      exact absurd hc (by cases e <;> simp [apiErrorCode, SEALEVEL_OK,
        SEALEVEL_ERR_INVALID_ELF, SEALEVEL_ERR_SYSCALL_REGISTRATION,
        SEALEVEL_ERR_CALL_DEPTH_EXCEEDED, SEALEVEL_ERR_UNKNOWN])

/-- Coverage of one permission set by another carries the writable-account
sets along: every index writable under the covered set is writable under the
covering set. -/
theorem permLE_writable_subset (a b : List sealevel_instruction_account)
    (hle : permLE a b = true) : ∀ i ∈ writableIdx a, i ∈ writableIdx b := by
  intro i hi
  simp only [writableIdx, List.mem_map, List.mem_filter] at hi
  obtain ⟨x, ⟨hxa, hxw⟩, rfl⟩ := hi
  simp only [permLE, List.all_eq_true] at hle
  have hx := hle x hxa
  simp only [List.any_eq_true] at hx
  obtain ⟨y, hyb, hxy⟩ := hx
  simp only [accountLEb, Bool.and_eq_true, Bool.or_eq_true,
    Bool.not_eq_true', decide_eq_true_eq] at hxy
  obtain ⟨⟨hidx, _⟩, hwrit⟩ := hxy
  simp only [writableIdx, List.mem_map, List.mem_filter]
  refine ⟨y, ⟨hyb, ?_⟩, hidx.symm⟩
  rcases hwrit with hxf | hyt
  · rw [hxw] at hxf; exact absurd hxf (by simp)
  · exact hyt

/-- C5: for every nested invocation, the callee's account permission set at
depth N is covered by the caller's at depth N-1 (in particular the callee's
writable-account set is a subset of its caller's), and an instruction that
would grant the callee an access the caller lacks is rejected as a fault,
not silently narrowed. -/
theorem permission_non_expanding (ctx : sealevel_invoke_context)
    (inv : Invocation) (accounts caller : List sealevel_instruction_account)
    (rest : List (List sealevel_instruction_account)) (body : Invocation) :
    (stackMono ctx.permStack = true →
      ∀ s ∈ (runBody ctx inv).entered, stackMono s = true) ∧
    (ctx.permStack = caller :: rest →
      ctx.permStack.length + 1 ≤ ctx.maxDepth →
      permLE accounts caller = false →
      runBody ctx (.invoke accounts body)
          = ⟨ctx, some .privilegeEscalation, 0, []⟩) ∧
    (∀ a b : List sealevel_instruction_account, permLE a b = true →
      ∀ i ∈ writableIdx a, i ∈ writableIdx b) := by
  refine ⟨runBody_entered_mono inv ctx, ?_, permLE_writable_subset⟩
  intro hstack hdepth hperm
  have hok : ¬ permOKtop ctx.permStack accounts = true := by
    rw [hstack]
    simp [permOKtop, hperm]
  simp only [runBody]
  rw [if_neg (by omega), if_neg hok]

/-- Witness for C5 at concrete inputs: a nested run from an empty stack keeps
every observed stack non-expanding; a callee requesting write access its
caller lacks faults with privilege escalation and runs nothing; and coverage
carries a concrete writable index across. -/
theorem permission_non_expanding_witness :
    (∀ s ∈ (runBody ⟨2, [], 10⟩
        (.invoke [⟨0, 0, false, true⟩] (.instr 1))).entered,
      stackMono s = true) ∧
    runBody ⟨2, [[⟨0, 0, false, false⟩]], 10⟩
        (.invoke [⟨0, 0, false, true⟩] .nop)
        = ⟨⟨2, [[⟨0, 0, false, false⟩]], 10⟩, some .privilegeEscalation, 0, []⟩ ∧
    (∀ i ∈ writableIdx [⟨0, 0, false, true⟩],
      i ∈ writableIdx [⟨0, 0, true, true⟩]) := by
  refine ⟨?_, ?_, ?_⟩
  · exact (permission_non_expanding ⟨2, [], 10⟩
      (.invoke [⟨0, 0, false, true⟩] (.instr 1)) [] [] [] .nop).1 (by decide)
  · exact ((permission_non_expanding ⟨2, [[⟨0, 0, false, false⟩]], 10⟩ .nop
      [⟨0, 0, false, true⟩] [⟨0, 0, false, false⟩] [] .nop).2.1
      rfl (by decide) (by decide))
  · exact (permission_non_expanding ⟨2, [], 10⟩ .nop [] [] [] .nop).2.2
      [⟨0, 0, false, true⟩] [⟨0, 0, true, true⟩] (by decide)

/-- C6: the transaction-wide compute-unit counter is monotonically
decreasing across executions within one invoke context; an execution that
would drive it below zero instead faults with the counter at exactly zero;
and once the counter is zero (all positive-cost classes), no further callee
instruction executes. -/
theorem compute_budget_monotone (ctx : sealevel_invoke_context)
    (inv : Invocation) :
    (runBody ctx inv).ctx.remaining ≤ ctx.remaining ∧
    ((runBody ctx inv).fault = some .computeBudgetExceeded →
      (runBody ctx inv).ctx.remaining = 0) ∧
    (costsPos inv = true → ctx.remaining = 0 →
      (runBody ctx inv).instrs = 0) :=
  ⟨runBody_remaining_le inv ctx, runBody_budget_fault inv ctx,
   fun hp hz => runBody_zero_budget inv ctx hp hz⟩

/-- Witness for C6 at a concrete input: a unit-cost instruction against an
exhausted counter keeps the counter at zero, reports the exhaustion fault
with the counter at exactly zero, and executes no instruction. -/
theorem compute_budget_monotone_witness :
    (runBody ⟨1, [], 0⟩ (.instr 1)).ctx.remaining ≤ 0 ∧
    (runBody ⟨1, [], 0⟩ (.instr 1)).ctx.remaining = 0 ∧
    (runBody ⟨1, [], 0⟩ (.instr 1)).instrs = 0 := by
  obtain ⟨h1, h2, h3⟩ := compute_budget_monotone ⟨1, [], 0⟩ (.instr 1)
  exact ⟨h1, h2 (by decide), h3 (by decide) (by decide)⟩

/-- C7: `sealevel_program_execute` runs the program and returns compute units
without advancing the call-depth state machine: the invoke context it leaves
behind is the one it was given — same depth, same permission stack, same
remaining budget. -/
theorem program_execute_preserves_context (p : sealevel_program)
    (ctx : sealevel_invoke_context) (data : List Int)
    (accounts : List sealevel_instruction_account) :
    (sealevel_program_execute p ctx data accounts).2 = ctx ∧
    depth (sealevel_program_execute p ctx data accounts).2 = depth ctx ∧
    (sealevel_program_execute p ctx data accounts).2.permStack
        = ctx.permStack ∧
    (sealevel_program_execute p ctx data accounts).2.remaining
        = ctx.remaining ∧
    (sealevel_program_execute p ctx data accounts).1
        = (jitExec p ctx.remaining data accounts).unitsConsumed :=
  ⟨rfl, rfl, rfl, rfl, rfl⟩

/-- C8: the thread-local error codes have the fixed stable values OK=0,
INVALID_ELF=1, SYSCALL_REGISTRATION=2, CALL_DEPTH_EXCEEDED=3, UNKNOWN=-1, and
`sealevel_errno` returning 0 means no error occurred. -/
theorem error_codes_stable :
    SEALEVEL_OK = 0 ∧ SEALEVEL_ERR_INVALID_ELF = 1 ∧
    SEALEVEL_ERR_SYSCALL_REGISTRATION = 2 ∧
    SEALEVEL_ERR_CALL_DEPTH_EXCEEDED = 3 ∧ SEALEVEL_ERR_UNKNOWN = -1 ∧
    ∀ st : ThreadState, sealevel_errno st = 0 ↔ st.lastError = none := by
  refine ⟨rfl, rfl, rfl, rfl, rfl, fun st => ?_⟩
  cases h : st.lastError with
  | none => simp [sealevel_errno, h, SEALEVEL_OK]
  | some e =>
    simp only [sealevel_errno, h]
    constructor
    · intro hc
      exact absurd hc (by cases e <;> simp [apiErrorCode,
        SEALEVEL_ERR_INVALID_ELF, SEALEVEL_ERR_SYSCALL_REGISTRATION,
        SEALEVEL_ERR_CALL_DEPTH_EXCEEDED, SEALEVEL_ERR_UNKNOWN])
    · intro hc
      exact absurd hc (by simp)

/-- C9: bytecode verification is deterministic: identical image and identical
machine configuration give an identical accept/reject outcome, identical
instruction tables on accept, and an identical program-construction
outcome. -/
theorem verification_deterministic (img1 img2 : List Nat)
    (m1 m2 : sealevel_machine) (sys1 sys2 : sealevel_syscall_registry)
    (himg : img1 = img2) (hm : m1 = m2) :
    verify img1 m1 = verify img2 m2 ∧
    (∀ t1 t2, verify img1 m1 = .ok t1 → verify img2 m2 = .ok t2 → t1 = t2) ∧
    ((sealevel_program_create m1 sys1 img1).1.isSome
        ↔ (sealevel_program_create m2 sys2 img2).1.isSome) := by
  subst himg; subst hm
  refine ⟨rfl, ?_, ?_⟩
  · intro t1 t2 h1 h2
    rw [h1] at h2
    injection h2
  · cases hv : verify img1 m1 <;> simp [sealevel_program_create, hv]

/-- Witness for C9 at a concrete input: the minimal valid image against the
default machine, twice. -/
theorem verification_deterministic_witness :
    verify exitImage defaultMachine = verify exitImage defaultMachine ∧
    (∀ t1 t2, verify exitImage defaultMachine = .ok t1 →
      verify exitImage defaultMachine = .ok t2 → t1 = t2) ∧
    ((sealevel_program_create defaultMachine [] exitImage).1.isSome
        ↔ (sealevel_program_create defaultMachine [] exitImage).1.isSome) :=
  verification_deterministic exitImage exitImage defaultMachine defaultMachine
    [] [] rfl rfl

/-- C10: calling `sealevel_strerror_free` with a NULL pointer is a no-op: the
thread state is returned unchanged, so the errno and the last error string
are exactly what they were. -/
theorem strerror_free_null_noop (st : ThreadState) :
    sealevel_strerror_free none st = st ∧
    sealevel_errno (sealevel_strerror_free none st) = sealevel_errno st ∧
    sealevel_strerror (sealevel_strerror_free none st)
        = sealevel_strerror st :=
  ⟨rfl, rfl, rfl⟩

end Sealevel
